import Mathlib

/-!
Verification development for the portfolio strategy engine
(vnpy_portfoliostrategy).  The definitions below are a shallow embedding of
`engine.py` and `template.py`: Python dictionaries become total functions
with an explicit default, object references become names looked up in the
state, floating point prices become rationals, and collaborator calls
(broker gateway, database, data feed) become explicit function parameters
or recorded actions.  Theorems about the embedding settle the claims of
the specification.
-/

namespace VnpyPortfolio

/-- Direction of an order or a fill (vnpy.trader.constant.Direction). -/
inductive Direction where
  | LONG
  | SHORT
deriving DecidableEq

/-- Offset qualifier of an order (vnpy.trader.constant.Offset). -/
inductive Offset where
  | OPEN
  | CLOSE
deriving DecidableEq

/-- Pointwise update of a total map, the embedding of a Python dict write
(dicts with a default value become total functions). -/
def mapSet {α : Type} (m : String → α) (k : String) (v : α) : String → α :=
  fun x => if x = k then v else m x

/-- The mutable state of one strategy instance (template.py,
`StrategyTemplate.__init__`): the two state flags, the position and target
defaultdicts (default 0), and the set of active order ids.  The engine
reference, parameters and the order snapshot cache are not needed by any
claim settled here. -/
structure Strategy where
  strategy_name : String
  vt_symbols : List String
  inited : Bool
  trading : Bool
  pos_data : String → Int
  target_data : String → Int
  active_orderids : List String

/-- A trade fill event (vnpy.trader.object.TradeData), restricted to the
fields `process_trade_event` and `update_trade` read.  The fill volume is
modelled as an integer (positions are lot counts). -/
structure TradeData where
  vt_tradeid : String
  vt_orderid : String
  vt_symbol : String
  direction : Direction
  volume : Int
deriving DecidableEq

/-- The engine state visible to `process_trade_event` (engine.py):
the global trade id dedup set `vt_tradeids`, the order id → strategy
routing map (strategy object references become strategy names), and the
registry of strategies as a total map from names. -/
structure TradeEngineState where
  vt_tradeids : List String
  orderid_strategy_map : String → Option String
  stratOf : String → Strategy

/-- template.py `StrategyTemplate.update_trade`: a LONG fill adds its
volume to `pos_data[vt_symbol]`, a SHORT fill subtracts it. -/
def update_trade (s : Strategy) (t : TradeData) : Strategy :=
  if t.direction = Direction.LONG then
    { s with pos_data := mapSet s.pos_data t.vt_symbol (s.pos_data t.vt_symbol + t.volume) }
  else
    { s with pos_data := mapSet s.pos_data t.vt_symbol (s.pos_data t.vt_symbol - t.volume) }

/-- engine.py `StrategyEngine.process_trade_event`: drop the event if its
trade id was already seen, otherwise record the id, look up the owning
strategy through `orderid_strategy_map`, and apply `update_trade` to it
(no-op when no strategy owns the order id).  `update_trade` cannot raise,
so the fault isolation wrapper adds nothing here. -/
def process_trade_event (st : TradeEngineState) (t : TradeData) : TradeEngineState :=
  if t.vt_tradeid ∈ st.vt_tradeids then st
  else
    let st1 : TradeEngineState := { st with vt_tradeids := t.vt_tradeid :: st.vt_tradeids }
    match st1.orderid_strategy_map t.vt_orderid with
    | none => st1
    | some name =>
        { st1 with
          stratOf := fun n => if n = name then update_trade (st1.stratOf n) t else st1.stratOf n }

/-- Deliver a whole sequence of trade events to the engine, in order. -/
def processTrades (st : TradeEngineState) (ts : List TradeData) : TradeEngineState :=
  ts.foldl process_trade_event st

/-- The subsequence of trade events that survive deduplication against an
initial set `seen` of already known trade ids: the first event carrying
each distinct trade id.  This is the specification-side description of the
dedup filter in `process_trade_event`. -/
def dedupNewTrades (seen : List String) : List TradeData → List TradeData
  | [] => []
  | t :: ts =>
      if t.vt_tradeid ∈ seen then dedupNewTrades seen ts
      else t :: dedupNewTrades (t.vt_tradeid :: seen) ts

/-- Signed fill volume: +volume for a LONG fill, -volume for a SHORT fill. -/
def signedVolume (t : TradeData) : Int :=
  if t.direction = Direction.LONG then t.volume else - t.volume

/-- Sum of the signed fill volumes of a list of trades. -/
def signedSum (ts : List TradeData) : Int :=
  (ts.map signedVolume).sum

/-- The trades of a list that are routed to strategy `name` (their order
id maps to it) and fill instrument `sym`. -/
def tradesFor (omap : String → Option String) (name sym : String)
    (ts : List TradeData) : List TradeData :=
  ts.filter (fun t => decide (omap t.vt_orderid = some name ∧ t.vt_symbol = sym))

lemma process_trade_event_omap (st : TradeEngineState) (t : TradeData) :
    (process_trade_event st t).orderid_strategy_map = st.orderid_strategy_map := by
  unfold process_trade_event
  split
  · rfl
  · dsimp only
    split <;> rfl

lemma processTrades_pos_general (name sym : String) (ts : List TradeData)
    (st : TradeEngineState) :
    ((processTrades st ts).stratOf name).pos_data sym
      = (st.stratOf name).pos_data sym
        + signedSum (tradesFor st.orderid_strategy_map name sym
            (dedupNewTrades st.vt_tradeids ts)) := by
  induction ts generalizing st with
  | nil => simp [processTrades, dedupNewTrades, tradesFor, signedSum]
  | cons t ts ih =>
    have hfold : processTrades st (t :: ts) = processTrades (process_trade_event st t) ts := rfl
    rw [hfold]
    by_cases hseen : t.vt_tradeid ∈ st.vt_tradeids
    · have hev : process_trade_event st t = st := by
        simp [process_trade_event, hseen]
      rw [hev, ih st]
      simp [dedupNewTrades, hseen]
    · rw [ih]
      unfold process_trade_event
      rw [if_neg hseen]
      dsimp only
      rw [dedupNewTrades, if_neg hseen]
      rcases homap : st.orderid_strategy_map t.vt_orderid with _ | owner
      · simp only [homap]
        have hnot : ¬ (st.orderid_strategy_map t.vt_orderid = some name ∧ t.vt_symbol = sym) := by
          intro h
          rw [homap] at h
          exact Option.noConfusion h.1
        simp [tradesFor, signedSum, hnot]
      · simp only [homap]
        by_cases hrel : owner = name ∧ t.vt_symbol = sym
        · have homap2 : st.orderid_strategy_map t.vt_orderid = some name := by
            rw [homap, hrel.1]
          have hkeepb :
              (decide (st.orderid_strategy_map t.vt_orderid = some name ∧ t.vt_symbol = sym))
                = true :=
            decide_eq_true ⟨homap2, hrel.2⟩
          simp only [tradesFor, List.filter_cons, hkeepb, if_true, signedSum,
            List.map_cons, List.sum_cons]
          rw [if_pos hrel.1.symm]
          by_cases hd : t.direction = Direction.LONG
          · simp [update_trade, signedVolume, hd, mapSet, hrel.2]
            ring
          · simp [update_trade, signedVolume, hd, mapSet, hrel.2]
            ring
        · have hdropb :
              (decide (st.orderid_strategy_map t.vt_orderid = some name ∧ t.vt_symbol = sym))
                = false := by
            rw [decide_eq_false_iff_not]
            intro h
            rw [homap] at h
            exact hrel ⟨(Option.some.injEq _ _).mp h.1, h.2⟩
          simp only [tradesFor, List.filter_cons, hdropb, Bool.false_eq_true, if_false]
          by_cases hname : name = owner
          · have hsymne : ¬ (sym = t.vt_symbol) := by
              intro h
              exact hrel ⟨hname.symm, h.symm⟩
            rw [if_pos hname]
            by_cases hd : t.direction = Direction.LONG
            · simp [update_trade, hd, mapSet, hsymne]
            · simp [update_trade, hd, mapSet, hsymne]
          · rw [if_neg hname]

/-- C1: after delivering any sequence of trade events to
`process_trade_event`, starting from an engine whose trade id dedup set is
empty and a strategy whose position for instrument `sym` is zero, that
strategy's `pos_data[sym]` equals the sum of signed fill volumes
(+volume for LONG, -volume for SHORT) over the first occurrence of each
distinct trade id whose order id maps to that strategy and whose
instrument is `sym`; later deliveries of an already seen trade id are
discarded by the dedup set, so each trade id is applied at most once. -/
theorem trade_replay_positions (st : TradeEngineState) (ts : List TradeData)
    (name sym : String)
    (h0 : st.vt_tradeids = [])
    (hp : (st.stratOf name).pos_data sym = 0) :
    ((processTrades st ts).stratOf name).pos_data sym
      = signedSum (tradesFor st.orderid_strategy_map name sym (dedupNewTrades [] ts)) := by
  rw [processTrades_pos_general, hp, h0, Int.zero_add]

/-- A concrete strategy with all flags clear and empty maps, used by the
concrete evaluations below. -/
def blankStrategy (n : String) : Strategy :=
  { strategy_name := n
    vt_symbols := ["IF2312.CFFEX"]
    inited := false
    trading := false
    pos_data := fun _ => 0
    target_data := fun _ => 0
    active_orderids := [] }

/-- A concrete engine state: no trade id seen yet, order id o1 owned by
strategy s1. -/
def tradeState0 : TradeEngineState :=
  { vt_tradeids := []
    orderid_strategy_map := fun o => if o = "o1" then some "s1" else none
    stratOf := fun n => blankStrategy n }

/-- A LONG fill of 5 lots for order o1, trade id t1. -/
def tr1 : TradeData :=
  { vt_tradeid := "t1", vt_orderid := "o1", vt_symbol := "IF2312.CFFEX"
    direction := Direction.LONG, volume := 5 }

/-- A SHORT fill of 2 lots for order o1, trade id t2. -/
def tr2 : TradeData :=
  { vt_tradeid := "t2", vt_orderid := "o1", vt_symbol := "IF2312.CFFEX"
    direction := Direction.SHORT, volume := 2 }

/-- Witness for C1 at a concrete input: the duplicate delivery of trade t1
is ignored and the final position is 5 - 2 = 3. -/
theorem trade_replay_positions_witness :
    tradeState0.vt_tradeids = []
      ∧ (tradeState0.stratOf "s1").pos_data "IF2312.CFFEX" = 0
      ∧ ((processTrades tradeState0 [tr1, tr1, tr2]).stratOf "s1").pos_data "IF2312.CFFEX"
          = signedSum (tradesFor tradeState0.orderid_strategy_map "s1" "IF2312.CFFEX"
              (dedupNewTrades [] [tr1, tr1, tr2])) :=
  ⟨rfl, rfl, trade_replay_positions tradeState0 [tr1, tr1, tr2] "s1" "IF2312.CFFEX" rfl rfl⟩

/-- Persisted strategy variables, as restored by `_init_strategy`
(engine.py).  The JSON dict is modelled field by field for the four
standard variables; `sync_strategy_data` pops `inited` and `trading`
before saving, so files written by the engine never carry those two keys,
but the restore loop would apply them if present, hence they are kept as
optional entries. -/
structure SavedData where
  initedEntry : Option Bool
  tradingEntry : Option Bool
  posEntries : Option (List (String × Int))
  targetEntries : Option (List (String × Int))

/-- dict.update on a defaultdict embedded as a total map: later entries
win. -/
def dictUpdate (m : String → Int) (kvs : List (String × Int)) : String → Int :=
  kvs.foldl (fun g kv => mapSet g kv.1 kv.2) m

/-- The variable-restore loop of `_init_strategy` (engine.py): iterate the
variable names in order (inited, trading, pos_data, target_data), skip
missing entries, merge the position and target dicts with dict.update, and
assign scalar fields directly. -/
def restoreVariables (s : Strategy) (d : SavedData) : Strategy :=
  let s1 := match d.initedEntry with
    | some v => { s with inited := v }
    | none => s
  let s2 := match d.tradingEntry with
    | some v => { s1 with trading := v }
    | none => s1
  let s3 := match d.posEntries with
    | some kvs => { s2 with pos_data := dictUpdate s2.pos_data kvs }
    | none => s2
  match d.targetEntries with
    | some kvs => { s3 with target_data := dictUpdate s3.target_data kvs }
    | none => s3

/-- engine.py `StrategyEngine.call_strategy_func`: run a strategy hook
under fault isolation.  The hook is an arbitrary state transformer (any
partial mutation a raising Python hook performed before the exception is
itself some transformer); when it raises, the trading and inited flags are
both forced false. -/
def call_strategy_func (s : Strategy) (hook : Strategy → Strategy) (raises : Bool) : Strategy :=
  if raises then
    let s1 := hook s
    { s1 with trading := false, inited := false }
  else hook s

/-- Lookup in the name-keyed strategy registry (the embedding of the
`self.strategies` dict). -/
def lookupStrat (l : List (String × Strategy)) (name : String) : Option Strategy :=
  match l with
  | [] => none
  | kv :: rest => if kv.1 = name then some kv.2 else lookupStrat rest name

/-- Write back the (in Python, in-place mutated) strategy object under its
name. -/
def setStrat (l : List (String × Strategy)) (name : String) (v : Strategy) :
    List (String × Strategy) :=
  l.map (fun kv => if kv.1 = name then (kv.1, v) else kv)

/-- The engine state read by `_init_strategy`: the registry, the persisted
per-strategy data loaded from the data file, and the contract metadata
availability used by the subscription step. -/
structure InitEngineState where
  strategies : List (String × Strategy)
  strategy_data : String → Option SavedData
  contracts : String → Bool

/-- Observable side effects of one `_init_strategy` pass, in program
order. -/
inductive InitAction where
  | logRepeated
  | logStart
  | ranOnInit
  | restored
  | subscribed (sym : String)
  | subscribeFailed (sym : String)
  | putEvent
  | logComplete
deriving DecidableEq

/-- engine.py `StrategyEngine._init_strategy`: refuse (log only) when the
strategy is already inited; otherwise run `on_init` under fault isolation,
restore persisted variables when present, subscribe to quotes for each
symbol (logging failures), then unconditionally set `inited := true` and
emit the strategy event.  The `on_init` hook is abstracted as a state
transformer plus a raises flag. -/
def init_strategy_run (st : InitEngineState) (name : String)
    (onInit : Strategy → Strategy) (raises : Bool) : InitEngineState × List InitAction :=
  match lookupStrat st.strategies name with
  | none => (st, [])
  | some strat =>
    if strat.inited then (st, [InitAction.logRepeated])
    else
      let s1 := call_strategy_func strat onInit raises
      let restoredPair : Strategy × List InitAction :=
        match st.strategy_data name with
        | some d => (restoreVariables s1 d, [InitAction.restored])
        | none => (s1, [])
      let s2 := restoredPair.1
      let subActs : List InitAction :=
        s2.vt_symbols.map (fun sym =>
          if st.contracts sym then InitAction.subscribed sym else InitAction.subscribeFailed sym)
      let s3 := { s2 with inited := true }
      ( { st with strategies := setStrat st.strategies name s3 },
        [InitAction.logStart, InitAction.ranOnInit] ++ restoredPair.2 ++ subActs
          ++ [InitAction.putEvent, InitAction.logComplete] )

lemma lookupStrat_setStrat_self (l : List (String × Strategy)) (name : String)
    (s v : Strategy) (h : lookupStrat l name = some s) :
    lookupStrat (setStrat l name v) name = some v := by
  induction l with
  | nil => simp [lookupStrat] at h
  | cons kv rest ih =>
    by_cases hk : kv.1 = name
    · simp [lookupStrat, setStrat, hk]
    · rw [lookupStrat, if_neg hk] at h
      simp only [setStrat, List.map_cons]
      rw [if_neg hk, lookupStrat, if_neg hk]
      exact ih h

lemma lookupStrat_setStrat_other (l : List (String × Strategy)) (name other : String)
    (v : Strategy) (h : other ≠ name) :
    lookupStrat (setStrat l name v) other = lookupStrat l other := by
  induction l with
  | nil => simp [lookupStrat, setStrat]
  | cons kv rest ih =>
    by_cases hk : kv.1 = name
    · simp only [setStrat, List.map_cons, if_pos hk, lookupStrat]
      rw [if_neg (by rw [hk]; exact fun hh => h hh.symm), if_neg (by rw [hk]; exact fun hh => h hh.symm)]
      exact ih
    · simp only [setStrat, List.map_cons, if_neg hk, lookupStrat]
      by_cases ho : kv.1 = other
      · rw [if_pos ho, if_pos ho]
      · rw [if_neg ho, if_neg ho]
        exact ih

lemma restoreVariables_trading (s : Strategy) (d : SavedData)
    (h1 : d.initedEntry = none) (h2 : d.tradingEntry = none) :
    (restoreVariables s d).trading = s.trading := by
  unfold restoreVariables
  rw [h1, h2]
  rcases d.posEntries with _ | kvs <;> rcases d.targetEntries with _ | kvs2 <;> rfl

/-- C2 counterexample: a strategy whose `on_init` raises does NOT end the
initialization pass with `inited = false`; the completion step of
`_init_strategy` sets `inited := true` unconditionally.  Concrete run:
registry with strategies a and b, no persisted data, `on_init` of a
raises. -/
theorem init_failure_inited_counterexample :
    (lookupStrat
        (init_strategy_run
          { strategies := [("a", blankStrategy "a"), ("b", blankStrategy "b")]
            strategy_data := fun _ => none
            contracts := fun _ => true }
          "a" id true).1.strategies "a").map (fun s => s.inited) = some true := by
  rfl

/-- C2 amended: for every strategy whose `on_init` hook raises, at the end
of `_init_strategy` the trading flag is false and every other entry of the
registry is unchanged and still queryable, but the inited flag is true
(the completion step sets it despite the failure).  The persisted data for
the strategy, when present, carries no inited/trading entries (the save
path pops them). -/
theorem init_failure_flags (st : InitEngineState) (name : String)
    (onInit : Strategy → Strategy) (s : Strategy)
    (hs : lookupStrat st.strategies name = some s)
    (hni : s.inited = false)
    (hdata : ∀ d, st.strategy_data name = some d →
      d.initedEntry = none ∧ d.tradingEntry = none) :
    (lookupStrat (init_strategy_run st name onInit true).1.strategies name).map
        (fun x => x.trading) = some false
      ∧ (lookupStrat (init_strategy_run st name onInit true).1.strategies name).map
          (fun x => x.inited) = some true
      ∧ ∀ other, other ≠ name →
          lookupStrat (init_strategy_run st name onInit true).1.strategies other
            = lookupStrat st.strategies other := by
  unfold init_strategy_run
  rw [hs]
  dsimp only
  rw [hni]
  simp only [Bool.false_eq_true, if_false]
  rcases hd : st.strategy_data name with _ | d
  · simp only [hd]
    refine ⟨?_, ?_, ?_⟩
    · rw [lookupStrat_setStrat_self st.strategies name s _ hs]
      simp [call_strategy_func]
    · rw [lookupStrat_setStrat_self st.strategies name s _ hs]
      rfl
    · intro other ho
      exact lookupStrat_setStrat_other st.strategies name other _ ho
  · obtain ⟨h1, h2⟩ := hdata d hd
    simp only [hd]
    refine ⟨?_, ?_, ?_⟩
    · rw [lookupStrat_setStrat_self st.strategies name s _ hs]
      have ht : (restoreVariables (call_strategy_func s onInit true) d).trading = false := by
        rw [restoreVariables_trading _ d h1 h2]
        simp [call_strategy_func]
      simp [ht]
    · rw [lookupStrat_setStrat_self st.strategies name s _ hs]
      rfl
    · intro other ho
      exact lookupStrat_setStrat_other st.strategies name other _ ho

/-- Witness for the amended C2 theorem at a concrete input. -/
theorem init_failure_flags_witness :
    lookupStrat [("a", blankStrategy "a"), ("b", blankStrategy "b")] "a"
        = some (blankStrategy "a")
      ∧ (blankStrategy "a").inited = false
      ∧ ((lookupStrat
            (init_strategy_run
              { strategies := [("a", blankStrategy "a"), ("b", blankStrategy "b")]
                strategy_data := fun _ => none
                contracts := fun _ => true }
              "a" id true).1.strategies "a").map (fun x => x.trading) = some false
          ∧ (lookupStrat
              (init_strategy_run
                { strategies := [("a", blankStrategy "a"), ("b", blankStrategy "b")]
                  strategy_data := fun _ => none
                  contracts := fun _ => true }
                "a" id true).1.strategies "a").map (fun x => x.inited) = some true
          ∧ ∀ other, other ≠ "a" →
              lookupStrat
                  (init_strategy_run
                    { strategies := [("a", blankStrategy "a"), ("b", blankStrategy "b")]
                      strategy_data := fun _ => none
                      contracts := fun _ => true }
                    "a" id true).1.strategies other
                = lookupStrat [("a", blankStrategy "a"), ("b", blankStrategy "b")] other) :=
  ⟨rfl, rfl,
    init_failure_flags _ "a" id (blankStrategy "a") rfl rfl
      (fun d hd => Option.noConfusion hd)⟩

/-- C9: calling `_init_strategy` on a strategy whose inited flag is
already set (Initialized or Trading state) is a no-op that only logs: the
whole engine state is returned unchanged, and the recorded actions contain
no hook run, no restore and no subscription. -/
theorem init_repeat_noop (st : InitEngineState) (name : String)
    (onInit : Strategy → Strategy) (raises : Bool) (s : Strategy)
    (hs : lookupStrat st.strategies name = some s)
    (hi : s.inited = true) :
    init_strategy_run st name onInit raises = (st, [InitAction.logRepeated]) := by
  unfold init_strategy_run
  rw [hs]
  dsimp only
  simp [hi]

/-- A concrete strategy in the Initialized state. -/
def initedStrategy : Strategy :=
  { blankStrategy "a" with inited := true }

/-- Witness for C9 at a concrete input. -/
theorem init_repeat_noop_witness :
    lookupStrat [("a", initedStrategy)] "a" = some initedStrategy
      ∧ initedStrategy.inited = true
      ∧ init_strategy_run
            { strategies := [("a", initedStrategy)]
              strategy_data := fun _ => none
              contracts := fun _ => true }
            "a" id false
          = ({ strategies := [("a", initedStrategy)]
               strategy_data := fun _ => none
               contracts := fun _ => true }, [InitAction.logRepeated]) :=
  ⟨rfl, rfl, init_repeat_noop _ "a" id false initedStrategy rfl rfl⟩

/-- Observable side effects of one `stop_strategy` pass, in program
order. -/
inductive StopAction where
  | ranOnStop
  | cancelRequest (vt_orderid : String)
  | syncData
  | putEvent
deriving DecidableEq

/-- template.py `StrategyTemplate.cancel_order`: forward the cancel to the
engine only while the trading flag is set. -/
def t_cancel_order_actions (s : Strategy) (oid : String) : List StopAction :=
  if s.trading then [StopAction.cancelRequest oid] else []

/-- template.py `StrategyTemplate.cancel_all`: cancel_order for every id
in active_orderids. -/
def t_cancel_all_actions (s : Strategy) : List StopAction :=
  s.active_orderids.flatMap (fun oid => t_cancel_order_actions s oid)

/-- engine.py `StrategyEngine.stop_strategy`: no-op when not trading;
otherwise run `on_stop` under fault isolation, set trading := false, then
call cancel_all, then sync_strategy_data (one persistence write) and emit
the strategy event.  active_orderids is only ever shrunk by
`update_order`, which stop does not call. -/
def stop_strategy_run (strategies : List (String × Strategy)) (name : String)
    (onStop : Strategy → Strategy) (raises : Bool) :
    List (String × Strategy) × List StopAction :=
  match lookupStrat strategies name with
  | none => (strategies, [])
  | some strat =>
    if strat.trading then
      let s1 := call_strategy_func strat onStop raises
      let s2 := { s1 with trading := false }
      let cancels := t_cancel_all_actions s2
      (setStrat strategies name s2,
        [StopAction.ranOnStop] ++ cancels ++ [StopAction.syncData, StopAction.putEvent])
    else (strategies, [])

/-- A concrete strategy in the Trading state holding one active order. -/
def tradingStrategy : Strategy :=
  { blankStrategy "a" with inited := true, trading := true, active_orderids := ["o1"] }

/-- C3 evaluated at the failing input: stopping a Trading strategy with
one active order id forwards NO cancel request (trading is cleared before
cancel_all runs, and cancel_order is gated on the trading flag), the
active order id set does not empty, and exactly one persistence write is
triggered.  The claim (and the code comment above the cancel_all call)
expects one forwarded cancel per active id. -/
theorem stop_strategy_no_cancel_forwarded :
    (stop_strategy_run [("a", tradingStrategy)] "a" id false).2
        = [StopAction.ranOnStop, StopAction.syncData, StopAction.putEvent]
      ∧ ((lookupStrat (stop_strategy_run [("a", tradingStrategy)] "a" id false).1 "a").map
          (fun s => s.active_orderids)) = some ["o1"] :=
  ⟨rfl, rfl⟩

/-- Result of template.py `StrategyTemplate.send_order`: the returned
order ids, the strategy state afterwards, and whether the engine
collaborator was invoked at all. -/
structure SendOutcome where
  vt_orderids : List String
  strat : Strategy
  engineCalled : Bool

/-- template.py `StrategyTemplate.send_order`: when trading, forward to
the engine (whose returned ids are the `engineIds` collaborator value),
record each returned id in active_orderids, and return the ids; when not
trading, return an empty list without touching the engine or the state.
The id set is modelled as a list. -/
def t_send_order (s : Strategy) (engineIds : List String) (sym : String)
    (direction : Direction) (offset : Offset) (price volume : ℚ) : SendOutcome :=
  if s.trading then
    { vt_orderids := engineIds
      strat := { s with active_orderids := s.active_orderids ++ engineIds }
      engineCalled := true }
  else
    { vt_orderids := [], strat := s, engineCalled := false }

/-- template.py `buy`: open long. -/
def t_buy (s : Strategy) (engineIds : List String) (sym : String) (price volume : ℚ) :
    SendOutcome :=
  t_send_order s engineIds sym Direction.LONG Offset.OPEN price volume

/-- template.py `sell`: close long. -/
def t_sell (s : Strategy) (engineIds : List String) (sym : String) (price volume : ℚ) :
    SendOutcome :=
  t_send_order s engineIds sym Direction.SHORT Offset.CLOSE price volume

/-- template.py `short`: open short. -/
def t_short (s : Strategy) (engineIds : List String) (sym : String) (price volume : ℚ) :
    SendOutcome :=
  t_send_order s engineIds sym Direction.SHORT Offset.OPEN price volume

/-- template.py `cover`: close short. -/
def t_cover (s : Strategy) (engineIds : List String) (sym : String) (price volume : ℚ) :
    SendOutcome :=
  t_send_order s engineIds sym Direction.LONG Offset.CLOSE price volume

/-- C10: when the trading flag is false, `send_order` (and therefore buy,
sell, short and cover) returns an empty id list, does not invoke the
engine, and leaves the strategy — in particular active_orderids —
unchanged; `cancel_order` forwards no cancel request. -/
theorem not_trading_order_entry_noop (s : Strategy) (engineIds : List String)
    (sym : String) (direction : Direction) (offset : Offset)
    (price volume : ℚ) (oid : String)
    (h : s.trading = false) :
    t_send_order s engineIds sym direction offset price volume
        = { vt_orderids := [], strat := s, engineCalled := false }
      ∧ t_buy s engineIds sym price volume
          = { vt_orderids := [], strat := s, engineCalled := false }
      ∧ t_sell s engineIds sym price volume
          = { vt_orderids := [], strat := s, engineCalled := false }
      ∧ t_short s engineIds sym price volume
          = { vt_orderids := [], strat := s, engineCalled := false }
      ∧ t_cover s engineIds sym price volume
          = { vt_orderids := [], strat := s, engineCalled := false }
      ∧ t_cancel_order_actions s oid = [] := by
  refine ⟨?_, ?_, ?_, ?_, ?_, ?_⟩ <;>
    simp [t_send_order, t_buy, t_sell, t_short, t_cover, t_cancel_order_actions, h]

/-- Witness for C10 at a concrete input. -/
theorem not_trading_order_entry_noop_witness :
    (blankStrategy "a").trading = false
      ∧ t_send_order (blankStrategy "a") ["x1"] "IF2312.CFFEX" Direction.LONG Offset.OPEN 100 1
          = { vt_orderids := [], strat := blankStrategy "a", engineCalled := false } :=
  ⟨rfl,
    (not_trading_order_entry_noop (blankStrategy "a") ["x1"] "IF2312.CFFEX"
      Direction.LONG Offset.OPEN 100 1 "o1" rfl).1⟩

/-- A bar of market data (vnpy.trader.object.BarData), restricted to the
fields `load_bars` and `rebalance_portfolio` read.  Timestamps are
naturals, prices rationals. -/
structure BarD where
  symbol : String
  exchange : String
  datetime : Nat
  open_price : ℚ
  high_price : ℚ
  low_price : ℚ
  close_price : ℚ
  gateway_name : String
deriving DecidableEq

/-- One order leg issued by `rebalance_portfolio` (a call to buy, sell,
short or cover). -/
structure OrderLeg where
  vt_symbol : String
  direction : Direction
  offset : Offset
  price : ℚ
  volume : Int
deriving DecidableEq

/-- The per-instrument body of template.py
`StrategyTemplate.rebalance_portfolio`: compute diff = target - pos; for
diff > 0 split into a cover leg of min(diff, abs(pos)) when pos < 0 and a
buy leg of the rest; for diff < 0 symmetrically a sell leg of
min(abs(diff), pos) when pos > 0 and a short leg of the rest; zero-volume
legs are not issued.  The pluggable `calculate_price` hook is the `calcPrice`
parameter (default: the reference close price unchanged). -/
def rebalanceLegsFor (calcPrice : String → Direction → ℚ → ℚ) (target pos : Int)
    (sym : String) (closePrice : ℚ) : List OrderLeg :=
  let diff := target - pos
  if diff > 0 then
    let order_price := calcPrice sym Direction.LONG closePrice
    let cover_volume : Int := if pos < 0 then min diff (|pos|) else 0
    let buy_volume : Int := if pos < 0 then diff - min diff (|pos|) else diff
    (if cover_volume ≠ 0 then
        [{ vt_symbol := sym, direction := Direction.LONG, offset := Offset.CLOSE,
           price := order_price, volume := cover_volume }] else [])
      ++ (if buy_volume ≠ 0 then
        [{ vt_symbol := sym, direction := Direction.LONG, offset := Offset.OPEN,
           price := order_price, volume := buy_volume }] else [])
  else if diff < 0 then
    let order_price := calcPrice sym Direction.SHORT closePrice
    let sell_volume : Int := if pos > 0 then min (|diff|) pos else 0
    let short_volume : Int := if pos > 0 then |diff| - min (|diff|) pos else |diff|
    (if sell_volume ≠ 0 then
        [{ vt_symbol := sym, direction := Direction.SHORT, offset := Offset.CLOSE,
           price := order_price, volume := sell_volume }] else [])
      ++ (if short_volume ≠ 0 then
        [{ vt_symbol := sym, direction := Direction.SHORT, offset := Offset.OPEN,
           price := order_price, volume := short_volume }] else [])
  else []

/-- template.py `StrategyTemplate.rebalance_portfolio`: iterate the bars
map (association list) and issue the legs for each instrument present,
reading target via get_target (defaultdict, 0 default) and position via
get_pos (dict.get with 0 default).  The initial cancel_all call issues no
new orders and is settled separately. -/
def rebalance_portfolio_legs (calcPrice : String → Direction → ℚ → ℚ) (s : Strategy)
    (bars : List (String × BarD)) : List OrderLeg :=
  bars.flatMap (fun kv =>
    rebalanceLegsFor calcPrice (s.target_data kv.1) (s.pos_data kv.1) kv.1 kv.2.close_price)

/-- Modelled from the wording of the specification, for comparison with
the source definition: closing volume = min(diff, max(0, -position)) as a
close-short leg and the remainder as an open-long leg when diff > 0, and
symmetrically when diff < 0; only non-zero legs are submitted. -/
def specLegsFor (calcPrice : String → Direction → ℚ → ℚ) (target pos : Int)
    (sym : String) (closePrice : ℚ) : List OrderLeg :=
  let diff := target - pos
  if diff > 0 then
    let closing := min diff (max 0 (-pos))
    let remaining := diff - closing
    let p := calcPrice sym Direction.LONG closePrice
    (if closing ≠ 0 then
        [{ vt_symbol := sym, direction := Direction.LONG, offset := Offset.CLOSE,
           price := p, volume := closing }] else [])
      ++ (if remaining ≠ 0 then
        [{ vt_symbol := sym, direction := Direction.LONG, offset := Offset.OPEN,
           price := p, volume := remaining }] else [])
  else if diff < 0 then
    let closing := min (|diff|) (max 0 pos)
    let remaining := |diff| - closing
    let p := calcPrice sym Direction.SHORT closePrice
    (if closing ≠ 0 then
        [{ vt_symbol := sym, direction := Direction.SHORT, offset := Offset.CLOSE,
           price := p, volume := closing }] else [])
      ++ (if remaining ≠ 0 then
        [{ vt_symbol := sym, direction := Direction.SHORT, offset := Offset.OPEN,
           price := p, volume := remaining }] else [])
  else []

/-- Signed volume of a leg: +volume for LONG, -volume for SHORT. -/
def legSignedVolume (l : OrderLeg) : Int :=
  if l.direction = Direction.LONG then l.volume else - l.volume

/-- Signed net volume of a list of legs. -/
def legsNet (ls : List OrderLeg) : Int :=
  (ls.map legSignedVolume).sum

lemma rebalanceLegsFor_eq_spec (calcPrice : String → Direction → ℚ → ℚ)
    (target pos : Int) (sym : String) (closePrice : ℚ) :
    rebalanceLegsFor calcPrice target pos sym closePrice
      = specLegsFor calcPrice target pos sym closePrice := by
  unfold rebalanceLegsFor specLegsFor
  by_cases h1 : target - pos > 0
  · rw [if_pos h1, if_pos h1]
    by_cases hp : pos < 0
    · have habs : |pos| = -pos := abs_of_neg hp
      have hmax : max 0 (-pos) = -pos := max_eq_right (by omega)
      rw [if_pos hp, if_pos hp, habs, hmax]
    · have hmax : max 0 (-pos) = 0 := max_eq_left (by omega)
      have hmin : min (target - pos) (0 : Int) = 0 := min_eq_right (by omega)
      rw [if_neg hp, if_neg hp, hmax, hmin]
      simp
  · rw [if_neg h1, if_neg h1]
    by_cases h2 : target - pos < 0
    · rw [if_pos h2, if_pos h2]
      by_cases hp : pos > 0
      · have hmax : max 0 pos = pos := max_eq_right (by omega)
        rw [if_pos hp, if_pos hp, hmax]
      · have hmax : max 0 pos = 0 := max_eq_left (by omega)
        have hmin : min (|target - pos|) (0 : Int) = 0 := min_eq_right (abs_nonneg _)
        rw [if_neg hp, if_neg hp, hmax, hmin]
        simp
    · rw [if_neg h2, if_neg h2]

lemma rebalanceLegsFor_net (calcPrice : String → Direction → ℚ → ℚ)
    (target pos : Int) (sym : String) (closePrice : ℚ) :
    legsNet (rebalanceLegsFor calcPrice target pos sym closePrice) = target - pos := by
  unfold rebalanceLegsFor
  by_cases h1 : target - pos > 0
  · rw [if_pos h1]
    by_cases hp : pos < 0
    · have habs : |pos| = -pos := abs_of_neg hp
      rw [if_pos hp, if_pos hp, habs]
      dsimp only
      split_ifs <;> simp [legsNet, legSignedVolume] <;> omega
    · rw [if_neg hp, if_neg hp]
      dsimp only
      split_ifs <;> simp [legsNet, legSignedVolume] <;> omega
  · rw [if_neg h1]
    by_cases h2 : target - pos < 0
    · rw [if_pos h2]
      have habs : |target - pos| = -(target - pos) := abs_of_neg h2
      by_cases hp : pos > 0
      · rw [if_pos hp, if_pos hp, habs]
        dsimp only
        split_ifs <;> simp [legsNet, legSignedVolume] <;> omega
      · rw [if_neg hp, if_neg hp, habs]
        dsimp only
        split_ifs <;> simp [legsNet, legSignedVolume] <;> omega
    · rw [if_neg h2]
      simp [legsNet]
      omega

lemma mem_two_guarded {α : Type} {l a b : α} {c1 c2 : Prop} [Decidable c1] [Decidable c2]
    (h : l ∈ (if c1 then [a] else []) ++ (if c2 then [b] else [])) : l = a ∨ l = b := by
  rcases List.mem_append.mp h with h2 | h2 <;> split at h2 <;> simp at h2 <;> tauto

lemma rebalanceLegsFor_symbol (calcPrice : String → Direction → ℚ → ℚ)
    (target pos : Int) (sym : String) (closePrice : ℚ) :
    ∀ l ∈ rebalanceLegsFor calcPrice target pos sym closePrice, l.vt_symbol = sym := by
  intro l hl
  simp only [rebalanceLegsFor] at hl
  by_cases h1 : target - pos > 0
  · rw [if_pos h1] at hl
    by_cases hp : pos < 0
    · rw [if_pos hp, if_pos hp] at hl
      rcases mem_two_guarded hl with h | h <;> rw [h]
    · rw [if_neg hp, if_neg hp] at hl
      rcases mem_two_guarded hl with h | h <;> rw [h]
  · rw [if_neg h1] at hl
    by_cases h2 : target - pos < 0
    · rw [if_pos h2] at hl
      by_cases hp : pos > 0
      · rw [if_pos hp, if_pos hp] at hl
        rcases mem_two_guarded hl with h | h <;> rw [h]
      · rw [if_neg hp, if_neg hp] at hl
        rcases mem_two_guarded hl with h | h <;> rw [h]
    · rw [if_neg h2] at hl
      cases hl

lemma rebalance_cons (calcPrice : String → Direction → ℚ → ℚ) (s : Strategy)
    (kv : String × BarD) (rest : List (String × BarD)) :
    rebalance_portfolio_legs calcPrice s (kv :: rest)
      = rebalanceLegsFor calcPrice (s.target_data kv.1) (s.pos_data kv.1) kv.1 kv.2.close_price
        ++ rebalance_portfolio_legs calcPrice s rest := by
  simp [rebalance_portfolio_legs]

lemma filter_symbol_eq_nil (calcPrice : String → Direction → ℚ → ℚ) (s : Strategy)
    (bars : List (String × BarD)) (sym : String)
    (h : sym ∉ bars.map Prod.fst) :
    (rebalance_portfolio_legs calcPrice s bars).filter (fun l => decide (l.vt_symbol = sym)) = [] := by
  induction bars with
  | nil => rfl
  | cons kv rest ih =>
    rw [List.map_cons] at h
    have hk : kv.1 ≠ sym := fun he => h (he ▸ List.mem_cons_self _ _)
    have hr : sym ∉ rest.map Prod.fst := fun he => h (List.mem_cons_of_mem _ he)
    have hA : (rebalanceLegsFor calcPrice (s.target_data kv.1) (s.pos_data kv.1) kv.1
          kv.2.close_price).filter (fun l => decide (l.vt_symbol = sym)) = [] := by
      rw [List.filter_eq_nil_iff]
      intro l hl
      have hsymb := rebalanceLegsFor_symbol calcPrice (s.target_data kv.1) (s.pos_data kv.1)
        kv.1 kv.2.close_price l hl
      simp [hsymb, hk]
    rw [rebalance_cons, List.filter_append, hA, ih hr]
    rfl

lemma filter_rebalance (calcPrice : String → Direction → ℚ → ℚ) (s : Strategy)
    (bars : List (String × BarD)) (sym : String) (bar : BarD)
    (hnd : (bars.map Prod.fst).Nodup) (hmem : (sym, bar) ∈ bars) :
    (rebalance_portfolio_legs calcPrice s bars).filter (fun l => decide (l.vt_symbol = sym))
      = rebalanceLegsFor calcPrice (s.target_data sym) (s.pos_data sym) sym bar.close_price := by
  induction bars with
  | nil => cases hmem
  | cons kv rest ih =>
    rw [List.map_cons, List.nodup_cons] at hnd
    obtain ⟨hk, hnd2⟩ := hnd
    rcases List.mem_cons.mp hmem with he | he
    · have hnotin : sym ∉ rest.map Prod.fst := by
        rw [← he] at hk
        exact hk
      have hA : (rebalanceLegsFor calcPrice (s.target_data kv.1) (s.pos_data kv.1) kv.1
            kv.2.close_price).filter (fun l => decide (l.vt_symbol = sym))
          = rebalanceLegsFor calcPrice (s.target_data kv.1) (s.pos_data kv.1) kv.1
            kv.2.close_price := by
        rw [List.filter_eq_self]
        intro l hl
        have hsymb := rebalanceLegsFor_symbol calcPrice (s.target_data kv.1) (s.pos_data kv.1)
          kv.1 kv.2.close_price l hl
        rw [← he] at hsymb
        simp [hsymb]
      rw [rebalance_cons, List.filter_append, hA, filter_symbol_eq_nil calcPrice s rest sym hnotin,
        List.append_nil, ← he]
    · have hksym : kv.1 ≠ sym := by
        intro h2
        exact hk (h2 ▸ List.mem_map.mpr ⟨(sym, bar), he, rfl⟩)
      have hA : (rebalanceLegsFor calcPrice (s.target_data kv.1) (s.pos_data kv.1) kv.1
            kv.2.close_price).filter (fun l => decide (l.vt_symbol = sym)) = [] := by
        rw [List.filter_eq_nil_iff]
        intro l hl
        have hsymb := rebalanceLegsFor_symbol calcPrice (s.target_data kv.1) (s.pos_data kv.1)
          kv.1 kv.2.close_price l hl
        simp [hsymb, hksym]
      rw [rebalance_cons, List.filter_append, hA, List.nil_append]
      exact ih hnd2 he

/-- C4: for every instrument present in the bars map handed to
`rebalance_portfolio` (keys distinct, as in a dict), the legs issued for
that instrument are exactly the closing-then-opening split described by
the specification (closing volume min(diff, max(0, -position)) as a cover
leg and the remainder as a buy leg when diff > 0, symmetric when
diff < 0, only non-zero legs), and their signed net volume is exactly
target - position. -/
theorem rebalance_leg_decomposition (calcPrice : String → Direction → ℚ → ℚ) (s : Strategy)
    (bars : List (String × BarD)) (sym : String) (bar : BarD)
    (hnd : (bars.map Prod.fst).Nodup) (hmem : (sym, bar) ∈ bars) :
    (rebalance_portfolio_legs calcPrice s bars).filter (fun l => decide (l.vt_symbol = sym))
        = specLegsFor calcPrice (s.target_data sym) (s.pos_data sym) sym bar.close_price
      ∧ legsNet ((rebalance_portfolio_legs calcPrice s bars).filter
            (fun l => decide (l.vt_symbol = sym)))
        = s.target_data sym - s.pos_data sym := by
  have hf := filter_rebalance calcPrice s bars sym bar hnd hmem
  constructor
  · rw [hf, rebalanceLegsFor_eq_spec]
  · rw [hf, rebalanceLegsFor_net]

/-- A concrete bar used by the witnesses. -/
def wbar : BarD :=
  { symbol := "A", exchange := "CFFEX", datetime := 1, open_price := 10, high_price := 11,
    low_price := 9, close_price := 10, gateway_name := "GW" }

/-- A concrete strategy short one lot of A with a target of plus two. -/
def shortOneStrategy : Strategy :=
  { blankStrategy "a" with
    trading := true, inited := true
    pos_data := fun x => if x = "A" then -1 else 0
    target_data := fun x => if x = "A" then 2 else 0 }

/-- Witness for C4 at a concrete input: position -1, target 2 over one
bar; the pass issues a cover leg of 1 and a buy leg of 2, net 3. -/
theorem rebalance_leg_decomposition_witness :
    ((([("A", wbar)] : List (String × BarD)).map Prod.fst).Nodup ∧ ("A", wbar) ∈ [("A", wbar)])
      ∧ ((rebalance_portfolio_legs (fun _ _ c => c) shortOneStrategy [("A", wbar)]).filter
            (fun l => decide (l.vt_symbol = "A"))
          = specLegsFor (fun _ _ c => c) (shortOneStrategy.target_data "A")
              (shortOneStrategy.pos_data "A") "A" wbar.close_price
        ∧ legsNet ((rebalance_portfolio_legs (fun _ _ c => c) shortOneStrategy
              [("A", wbar)]).filter (fun l => decide (l.vt_symbol = "A")))
          = shortOneStrategy.target_data "A" - shortOneStrategy.pos_data "A") :=
  ⟨⟨by simp, by simp⟩,
    rebalance_leg_decomposition (fun _ _ c => c) shortOneStrategy [("A", wbar)] "A" wbar
      (by simp) (by simp)⟩

lemma rebalanceLegsFor_self (calcPrice : String → Direction → ℚ → ℚ) (v : Int)
    (sym : String) (closePrice : ℚ) :
    rebalanceLegsFor calcPrice v v sym closePrice = [] := by
  unfold rebalanceLegsFor
  simp

/-- C5: rebalance is idempotent at the target: when the position equals
the target for every instrument appearing in the bars map, the pass
issues zero new orders. -/
theorem rebalance_idempotent_at_target (calcPrice : String → Direction → ℚ → ℚ) (s : Strategy)
    (bars : List (String × BarD))
    (h : ∀ kv ∈ bars, s.pos_data kv.1 = s.target_data kv.1) :
    rebalance_portfolio_legs calcPrice s bars = [] := by
  induction bars with
  | nil => rfl
  | cons kv rest ih =>
    have h1 := h kv (List.mem_cons_self _ _)
    rw [rebalance_cons, ← h1, rebalanceLegsFor_self, List.nil_append]
    exact ih (fun kv2 h2 => h kv2 (List.mem_cons_of_mem _ h2))

/-- Witness for C5 at a concrete input: the blank strategy holds position
0 with target 0 for every instrument, so one bar produces no orders. -/
theorem rebalance_idempotent_at_target_witness :
    (∀ kv ∈ ([("A", wbar)] : List (String × BarD)),
        (blankStrategy "a").pos_data kv.1 = (blankStrategy "a").target_data kv.1)
      ∧ rebalance_portfolio_legs (fun _ _ c => c) (blankStrategy "a") [("A", wbar)] = [] :=
  ⟨fun _ _ => rfl,
    rebalance_idempotent_at_target (fun _ _ c => c) (blankStrategy "a") [("A", wbar)]
      (fun _ _ => rfl)⟩

/-- Contract metadata (vnpy.trader.object.ContractData), restricted to
the fields `send_order` reads. -/
structure ContractData where
  symbol : String
  exchange : String
  pricetick : ℚ
  min_volume : ℚ
  gateway_name : String
deriving DecidableEq

/-- A broker-neutral order request (vnpy.trader.object.OrderRequest),
restricted to the fields `send_order` sets. -/
structure OrderRequest where
  symbol : String
  exchange : String
  direction : Direction
  offset : Offset
  price : ℚ
  volume : ℚ
  reference : String
deriving DecidableEq

/-- The external utility vnpy.trader.utility.round_to, modelled over the
rationals: round the value to the nearest multiple of the target. -/
def round_to (value target : ℚ) : ℚ :=
  ((round (value / target) : ℤ) : ℚ) * target

/-- The observable outcome of engine.py `StrategyEngine.send_order`: the
original request handed to convert_order_request (none when the contract
was missing), the returned order ids, the ids registered into
orderid_strategy_map, and whether a failure log was emitted.  In the
missing-contract case the Python function returns an empty string, which
contains zero order ids; it is rendered here as the empty id list. -/
structure SendResult where
  origReq : Option OrderRequest
  vt_orderids : List String
  mapAdds : List String
  logged : Bool
deriving DecidableEq

/-- engine.py `StrategyEngine.send_order`: resolve the contract (log and
return zero ids when absent, without raising), round price to the
pricetick and volume to min_volume, build the original request tagged
with the strategy name, let the collaborator convert_order_request split
it, submit each child request (empty returned id means rejected and is
skipped), and register every accepted id for the strategy. -/
def e_send_order (getContract : String → Option ContractData)
    (convert_order_request : OrderRequest → List OrderRequest)
    (submit : OrderRequest → String)
    (strategy_name vt_symbol : String) (direction : Direction) (offset : Offset)
    (price volume : ℚ) : SendResult :=
  match getContract vt_symbol with
  | none => { origReq := none, vt_orderids := [], mapAdds := [], logged := true }
  | some contract =>
      let price2 := round_to price contract.pricetick
      let volume2 := round_to volume contract.min_volume
      let original_req : OrderRequest :=
        { symbol := contract.symbol, exchange := contract.exchange, direction := direction,
          offset := offset, price := price2, volume := volume2,
          reference := "PortfolioStrategy_" ++ strategy_name }
      let req_list := convert_order_request original_req
      let ids := (req_list.map submit).filter (fun oid => decide (oid ≠ ""))
      { origReq := some original_req, vt_orderids := ids, mapAdds := ids, logged := false }

/-- C6: when contract metadata for the instrument is absent, `send_order`
logs the failure and returns zero order ids without raising (the model is
a total function); when the contract is present, the original order
request submitted to the conversion step carries the price rounded to the
pricetick and the volume rounded to min_volume. -/
theorem send_order_contract_handling (getContract : String → Option ContractData)
    (convert_order_request : OrderRequest → List OrderRequest)
    (submit : OrderRequest → String)
    (strategy_name vt_symbol : String) (direction : Direction) (offset : Offset)
    (price volume : ℚ) :
    (getContract vt_symbol = none →
        e_send_order getContract convert_order_request submit strategy_name vt_symbol
            direction offset price volume
          = { origReq := none, vt_orderids := [], mapAdds := [], logged := true })
      ∧ (∀ c, getContract vt_symbol = some c →
          (e_send_order getContract convert_order_request submit strategy_name vt_symbol
              direction offset price volume).origReq
            = some { symbol := c.symbol, exchange := c.exchange, direction := direction,
                     offset := offset, price := round_to price c.pricetick,
                     volume := round_to volume c.min_volume,
                     reference := "PortfolioStrategy_" ++ strategy_name }) := by
  constructor
  · intro h
    simp [e_send_order, h]
  · intro c hc
    simp [e_send_order, hc]

/-- A concrete contract used by the witnesses. -/
def wcontract : ContractData :=
  { symbol := "IF2312", exchange := "CFFEX", pricetick := 1/5, min_volume := 1,
    gateway_name := "CTP" }

/-- Witness for C6 at concrete inputs, exercising both the
missing-contract branch and the rounding branch. -/
theorem send_order_contract_handling_witness :
    ((fun _ => (none : Option ContractData)) "X" = none
      ∧ e_send_order (fun _ => none) (fun r => [r]) (fun _ => "id1") "s1" "X"
            Direction.LONG Offset.OPEN 10 2
          = { origReq := none, vt_orderids := [], mapAdds := [], logged := true })
      ∧ ((fun _ => some wcontract) "X" = some wcontract
        ∧ (e_send_order (fun _ => some wcontract) (fun r => [r]) (fun _ => "id1") "s1" "X"
              Direction.LONG Offset.OPEN (103/10) (5/2)).origReq
            = some { symbol := wcontract.symbol, exchange := wcontract.exchange,
                     direction := Direction.LONG, offset := Offset.OPEN,
                     price := round_to (103/10) wcontract.pricetick,
                     volume := round_to (5/2) wcontract.min_volume,
                     reference := "PortfolioStrategy_" ++ "s1" }) :=
  ⟨⟨rfl,
      (send_order_contract_handling (fun _ => none) (fun r => [r]) (fun _ => "id1") "s1" "X"
        Direction.LONG Offset.OPEN 10 2).1 rfl⟩,
    ⟨rfl,
      (send_order_contract_handling (fun _ => some wcontract) (fun r => [r]) (fun _ => "id1")
        "s1" "X" Direction.LONG Offset.OPEN (103/10) (5/2)).2 wcontract rfl⟩⟩

/-- engine.py `StrategyEngine.load_bar`: when the contract exists and
advertises history_data, query the gateway (`gatewayData = some result`);
otherwise query the paid data feed.  Only when the chosen primary source
returned an empty list is the local database consulted. -/
def load_bar (gatewayData : Option (List BarD)) (datafeedData : List BarD)
    (databaseData : List BarD) : List BarD :=
  let data := match gatewayData with
    | some d => d
    | none => datafeedData
  if data = [] then databaseData else data

/-- A second concrete bar, distinct from `wbar`. -/
def wbar2 : BarD :=
  { wbar with close_price := 42 }

/-- C8 counterexample: when the direct feed is available but returns an
empty sequence, `load_bar` falls back directly to the local database and
never consults the paid data service, so the data-service result [wbar]
is NOT returned. -/
theorem load_bar_priority_counterexample :
    load_bar (some []) [wbar] [wbar2] = [wbar2]
      ∧ load_bar (some []) [wbar] [wbar2] ≠ [wbar] := by
  constructor
  · rfl
  · decide

/-- C8 amended: `load_bar` consults the paid data service only when the
direct feed is unavailable (no contract or no history_data flag); the
chosen primary source (direct feed when available, else data service)
wins when non-empty, and the local store is used exactly when the primary
source returned an empty sequence. -/
theorem load_bar_source_fallback (gw feed db : List BarD) :
    (gw ≠ [] → load_bar (some gw) feed db = gw)
      ∧ load_bar (some []) feed db = db
      ∧ (feed ≠ [] → load_bar none feed db = feed)
      ∧ load_bar none [] db = db := by
  refine ⟨?_, ?_, ?_, ?_⟩
  · intro h
    simp [load_bar, h]
  · rfl
  · intro h
    simp [load_bar, h]
  · rfl

/-- Witness for the amended C8 theorem at concrete inputs. -/
theorem load_bar_source_fallback_witness :
    ([wbar] ≠ ([] : List BarD)
        ∧ [wbar2] ≠ ([] : List BarD))
      ∧ (load_bar (some [wbar]) [wbar2] [wbar] = [wbar]
        ∧ load_bar (some []) [wbar2] [wbar] = [wbar]
        ∧ load_bar none [wbar2] [wbar] = [wbar2]
        ∧ load_bar none [] [wbar] = [wbar]) :=
  ⟨⟨by decide, by decide⟩,
    ⟨(load_bar_source_fallback [wbar] [wbar2] [wbar]).1 (by decide),
      (load_bar_source_fallback [wbar] [wbar2] [wbar]).2.1,
      (load_bar_source_fallback [wbar] [wbar2] [wbar]).2.2.1 (by decide),
      (load_bar_source_fallback [wbar] [wbar2] [wbar]).2.2.2⟩⟩

/-- The synthetic flat bar built by engine.py `load_bars` when an
instrument has no real bar at a timestamp: all four prices equal the
previous bar's close price; symbol, exchange and gateway are copied. -/
def flatBar (old_bar : BarD) (dt : Nat) : BarD :=
  { symbol := old_bar.symbol, exchange := old_bar.exchange, datetime := dt,
    open_price := old_bar.close_price, high_price := old_bar.close_price,
    low_price := old_bar.close_price, close_price := old_bar.close_price,
    gateway_name := old_bar.gateway_name }

/-- One instrument at one timestamp inside the `load_bars` loop: a real
bar from history wins, otherwise the cached previous bar is forward
filled as a flat bar, otherwise the instrument stays absent. -/
def fillSymbol (histBar : Option BarD) (dt : Nat) (prev : Option BarD) : Option BarD :=
  match histBar with
  | some bar => some bar
  | none =>
      match prev with
      | some old_bar => some (flatBar old_bar dt)
      | none => none

/-- One timestamp of the `load_bars` loop: update the bars cache for every
symbol of the strategy in order. -/
def stepDt (hist : String → Nat → Option BarD) (syms : List String) (dt : Nat)
    (bars : String → Option BarD) : String → Option BarD :=
  syms.foldl (fun m s => mapSet m s (fillSymbol (hist s dt) dt (m s))) bars

/-- engine.py `StrategyEngine.load_bars`, after the per-symbol history has
been merged into `hist` and the sorted distinct timestamp list `dts`: the
sequence of bars maps passed to the strategy's on_bars callback, one per
timestamp. -/
def load_bars_snapshots (hist : String → Nat → Option BarD) (syms : List String) :
    List Nat → (String → Option BarD) → List (String → Option BarD)
  | [], _ => []
  | dt :: rest, bars =>
      let bars2 := stepDt hist syms dt bars
      bars2 :: load_bars_snapshots hist syms rest bars2

/-- The last real bar of symbol `s` over a timestamp list (specification
side: the latest known bar whose close is forward filled). -/
def lastRealBar (hist : String → Nat → Option BarD) (s : String) (dts : List Nat) :
    Option BarD :=
  dts.foldl (fun acc dt => match hist s dt with | some b => some b | none => acc) none

/-- Same fold as `lastRealBar` from an arbitrary accumulator. -/
def lastRealAux (hist : String → Nat → Option BarD) (s : String) (acc : Option BarD)
    (dts : List Nat) : Option BarD :=
  dts.foldl (fun a dt => match hist s dt with | some b => some b | none => a) acc

/-- The per-symbol forward fill fold from an arbitrary cache value. -/
def ffill (hist : String → Nat → Option BarD) (s : String) (init : Option BarD)
    (dts : List Nat) : Option BarD :=
  dts.foldl (fun prev dt => fillSymbol (hist s dt) dt prev) init

/-- The bar components preserved by forward filling: symbol, exchange,
close price and gateway. -/
def projB (b : BarD) : String × String × ℚ × String :=
  (b.symbol, b.exchange, b.close_price, b.gateway_name)

lemma flatBar_congr (a b : BarD) (dt : Nat) (h : projB a = projB b) :
    flatBar a dt = flatBar b dt := by
  simp only [projB, Prod.mk.injEq] at h
  simp [flatBar, h.1, h.2.1, h.2.2.1, h.2.2.2]

lemma stepDt_apply (hist : String → Nat → Option BarD) (dt : Nat) :
    ∀ (syms : List String), syms.Nodup →
      ∀ (bars : String → Option BarD) (x : String),
        stepDt hist syms dt bars x
          = if x ∈ syms then fillSymbol (hist x dt) dt (bars x) else bars x := by
  intro syms
  induction syms with
  | nil =>
    intro _ bars x
    simp [stepDt]
  | cons a rest ih =>
    intro hnd bars x
    rw [List.nodup_cons] at hnd
    obtain ⟨ha, hnd2⟩ := hnd
    have hstep : stepDt hist (a :: rest) dt bars
        = stepDt hist rest dt (mapSet bars a (fillSymbol (hist a dt) dt (bars a))) := rfl
    rw [hstep, ih hnd2]
    by_cases hxr : x ∈ rest
    · have hxa : x ≠ a := fun he => ha (he ▸ hxr)
      rw [if_pos hxr, if_pos (List.mem_cons_of_mem a hxr)]
      simp [mapSet, hxa]
    · by_cases hxa : x = a
      · subst hxa
        rw [if_neg hxr, if_pos (List.mem_cons_self x rest)]
        simp [mapSet]
      · have hnx : x ∉ a :: rest := by
          intro h
          rcases List.mem_cons.mp h with h1 | h2
          · exact hxa h1
          · exact hxr h2
        rw [if_neg hxr, if_neg hnx]
        simp [mapSet, hxa]

lemma load_bars_snapshots_get (hist : String → Nat → Option BarD) (syms : List String) :
    ∀ (dts : List Nat) (bars : String → Option BarD) (k : Nat), k < dts.length →
      (load_bars_snapshots hist syms dts bars).get? k
        = some (List.foldl (fun m dt => stepDt hist syms dt m) bars (dts.take (k + 1))) := by
  intro dts
  induction dts with
  | nil =>
    intro bars k hk
    exact absurd hk (Nat.not_lt_zero k)
  | cons dt rest ih =>
    intro bars k hk
    cases k with
    | zero => rfl
    | succ k2 =>
      have hk2 : k2 < rest.length := Nat.lt_of_succ_lt_succ hk
      have hcons : (load_bars_snapshots hist syms (dt :: rest) bars).get? (k2 + 1)
          = (load_bars_snapshots hist syms rest (stepDt hist syms dt bars)).get? k2 := rfl
      rw [hcons, ih (stepDt hist syms dt bars) k2 hk2]
      rfl

lemma foldl_stepDt_apply (hist : String → Nat → Option BarD) (syms : List String)
    (hnd : syms.Nodup) (s : String) (hs : s ∈ syms) :
    ∀ (L : List Nat) (bars : String → Option BarD),
      (List.foldl (fun m dt => stepDt hist syms dt m) bars L) s
        = ffill hist s (bars s) L := by
  intro L
  induction L with
  | nil =>
    intro bars
    rfl
  | cons d L ih =>
    intro bars
    rw [List.foldl_cons, ih]
    unfold ffill
    rw [List.foldl_cons]
    have : stepDt hist syms d bars s = fillSymbol (hist s d) d (bars s) := by
      rw [stepDt_apply hist d syms hnd bars s, if_pos hs]
    rw [this]

lemma ffill_projB (hist : String → Nat → Option BarD) (s : String) :
    ∀ (L : List Nat) (init acc : Option BarD),
      init.map projB = acc.map projB →
      (ffill hist s init L).map projB = (lastRealAux hist s acc L).map projB := by
  intro L
  induction L with
  | nil =>
    intro init acc h
    exact h
  | cons d L ih =>
    intro init acc h
    unfold ffill lastRealAux
    rw [List.foldl_cons, List.foldl_cons]
    apply ih
    rcases hh : hist s d with _ | b
    · rcases hi : init with _ | old
      · have hacc : acc = none := by
          rcases ha : acc with _ | rb
          · rfl
          · rw [hi, ha] at h
            simp at h
        rw [hacc]
        simp [fillSymbol, hh]
      · rcases ha : acc with _ | rb
        · rw [hi, ha] at h
          simp at h
        · rw [hi, ha] at h
          simp only [Option.map_some'] at h
          rw [Option.some.injEq] at h
          simp only [fillSymbol, hh, Option.map_some']
          rw [Option.some.injEq]
          calc projB (flatBar old d) = projB old := rfl
            _ = projB rb := h
    · simp [fillSymbol, hh]

lemma lastRealBar_append (hist : String → Nat → Option BarD) (s : String)
    (L : List Nat) (d : Nat) :
    lastRealBar hist s (L ++ [d])
      = match hist s d with | some b => some b | none => lastRealBar hist s L := by
  unfold lastRealBar
  rw [List.foldl_append]
  rfl

lemma ffill_last_char (hist : String → Nat → Option BarD) (s : String)
    (L : List Nat) (d : Nat) :
    ffill hist s none (L ++ [d])
      = match hist s d with
        | some b => some b
        | none => (lastRealBar hist s (L ++ [d])).map (fun b => flatBar b d) := by
  have hL : ffill hist s none (L ++ [d]) = fillSymbol (hist s d) d (ffill hist s none L) := by
    unfold ffill
    rw [List.foldl_append]
    rfl
  rw [hL, lastRealBar_append]
  rcases hh : hist s d with _ | b
  · have haux : lastRealAux hist s none L = lastRealBar hist s L := rfl
    have hp := ffill_projB hist s L none none rfl
    rw [haux] at hp
    dsimp only
    rcases hf : ffill hist s none L with _ | old
    · rw [hf] at hp
      rcases hr : lastRealBar hist s L with _ | rb
      · simp [fillSymbol]
      · rw [hr] at hp
        simp at hp
    · rw [hf] at hp
      rcases hr : lastRealBar hist s L with _ | rb
      · rw [hr] at hp
        simp at hp
      · rw [hr] at hp
        simp only [Option.map_some'] at hp
        rw [Option.some.injEq] at hp
        simp only [fillSymbol, Option.map_some']
        rw [Option.some.injEq]
        exact flatBar_congr old rb d hp
  · simp [fillSymbol, hh]

/-- C7: in `load_bars`, once an instrument has produced a real bar, every
later timestamp's callback map contains one bar for it: the real bar of
that timestamp if one exists, otherwise a synthetic flat bar at that
timestamp whose open, high, low and close all equal the close of the
last real bar seen so far (`flatBar` of `lastRealBar`); an instrument
with no real bar yet is absent (the match yields none exactly when
`lastRealBar` over the processed prefix is none). -/
theorem load_bars_forward_fill (hist : String → Nat → Option BarD)
    (syms : List String) (dts : List Nat) (s : String) (k dk : Nat)
    (hnd : syms.Nodup) (hs : s ∈ syms) (hk : dts.get? k = some dk) :
    ((load_bars_snapshots hist syms dts (fun _ => none)).get? k).map (fun m => m s)
      = some (match hist s dk with
          | some b => some b
          | none => (lastRealBar hist s (dts.take (k + 1))).map (fun b => flatBar b dk)) := by
  have hklen : k < dts.length := by
    rcases List.get?_eq_some.mp hk with ⟨h, _⟩
    exact h
  rw [load_bars_snapshots_get hist syms dts (fun _ => none) k hklen]
  simp only [Option.map_some']
  rw [Option.some.injEq]
  rw [foldl_stepDt_apply hist syms hnd s hs]
  have hsplit : dts.take (k + 1) = dts.take k ++ [dk] := by
    have h2 : dts[k]? = some dk := by
      rw [← List.get?_eq_getElem?]
      exact hk
    rw [List.take_succ, h2]
    rfl
  rw [hsplit]
  exact ffill_last_char hist s (dts.take k) dk

/-- Concrete bars for the C7 witness: instrument A has bars at times 1
and 2, instrument B only at time 1. -/
def barA1 : BarD :=
  { symbol := "A", exchange := "E", datetime := 1, open_price := 1, high_price := 1,
    low_price := 1, close_price := 11, gateway_name := "GW" }

/-- Bar of A at time 2. -/
def barA2 : BarD :=
  { symbol := "A", exchange := "E", datetime := 2, open_price := 2, high_price := 2,
    low_price := 2, close_price := 12, gateway_name := "GW" }

/-- Bar of B at time 1. -/
def barB1 : BarD :=
  { symbol := "B", exchange := "E", datetime := 1, open_price := 3, high_price := 3,
    low_price := 3, close_price := 21, gateway_name := "GW" }

/-- Concrete merged history for the C7 witness. -/
def whist : String → Nat → Option BarD :=
  fun s dt =>
    if s = "A" then (if dt = 1 then some barA1 else if dt = 2 then some barA2 else none)
    else if s = "B" then (if dt = 1 then some barB1 else none)
    else none

/-- Witness for C7 at a concrete input: at the second timestamp B has no
real bar, so its callback entry is the flat bar carrying the close of
barB1. -/
theorem load_bars_forward_fill_witness :
    ((["A", "B"] : List String).Nodup ∧ "B" ∈ (["A", "B"] : List String)
        ∧ ([1, 2] : List Nat).get? 1 = some 2)
      ∧ ((load_bars_snapshots whist ["A", "B"] [1, 2] (fun _ => none)).get? 1).map
            (fun m => m "B")
          = some (match whist "B" 2 with
              | some b => some b
              | none => (lastRealBar whist "B" (([1, 2] : List Nat).take 2)).map
                  (fun b => flatBar b 2)) :=
  ⟨⟨by decide, by decide, rfl⟩,
    load_bars_forward_fill whist ["A", "B"] [1, 2] "B" 1 2 (by decide) (by decide) rfl⟩

end VnpyPortfolio
